import Mathlib

/-!
Verification development for djcelery_transactions (django-celery-transactions).

The embedded code is src/djcelery_transactions/__init__.py: a per-thread
deferral buffer for Celery task submissions, flushed on transaction commit
and discarded on rollback.

Model conventions:
* an Invocation is the tuple (self, args, kwargs) appended to the queue;
* a LocalState is the view from one thread: its task_queue plus a ghost
  log of every call made to the real celery apply_async transport
  (original_apply_async), in order;
* the transport result returned by original_apply_async is modelled as the
  invocation itself (an opaque AsyncResult token);
* dispatch failure is modelled by a predicate saying whether the transport
  call for a given invocation raises; the drain loop of _send_tasks has no
  exception handler, which the fallible drain model reflects.
-/

/-- Model of the tuple (self, args, kwargs) stored in the task queue:
the task object identity plus the positional and keyword arguments of the
submission. -/
structure Invocation where
  task : Nat
  args : List Nat
  kwargs : List (Nat × Nat)
deriving DecidableEq, Repr

/-- Model of the Django database connection returned by get_connection:
only its in_atomic_block flag is consulted by the code. -/
structure Connection where
  in_atomic_block : Bool
deriving DecidableEq, Repr

/-- Model of current_app.conf: only CELERY_ALWAYS_EAGER is consulted. -/
structure CeleryConf where
  CELERY_ALWAYS_EAGER : Bool
deriving DecidableEq, Repr

/-- View of the program state from one thread: the thread-local task_queue
together with a ghost log of the calls made to the real transport. -/
structure LocalState where
  task_queue : List Invocation
  dispatched : List Invocation
deriving DecidableEq, Repr

/-- Model of PostTransactionTask.original_apply_async: call the real
celery Task.apply_async (recorded in the dispatch log) and return its
result, unconditionally. -/
def original_apply_async (s : LocalState) (inv : Invocation) :
    LocalState × Invocation :=
  ({ s with dispatched := s.dispatched ++ [inv] }, inv)

/-- Model of PostTransactionTask.apply_async: if the connection is in an
atomic block and CELERY_ALWAYS_EAGER is off, append (self, args, kwargs)
to the thread's task queue and return None; otherwise dispatch through
original_apply_async and return its result. -/
def apply_async (conn : Connection) (conf : CeleryConf) (s : LocalState)
    (inv : Invocation) : LocalState × Option Invocation :=
  if conn.in_atomic_block && !conf.CELERY_ALWAYS_EAGER then
    ({ s with task_queue := s.task_queue ++ [inv] }, none)
  else
    let r := original_apply_async s inv
    (r.1, some r.2)

/-- Model of _discard_tasks: empty the thread's task queue in place. -/
def discard_tasks (s : LocalState) : LocalState :=
  { s with task_queue := [] }

/-- The while loop of _send_tasks: pop the head of the queue and dispatch
it, until the queue is empty.  First component of the result is the final
queue, second is the final dispatch log. -/
def sendLoop : List Invocation → List Invocation →
    List Invocation × List Invocation
  | [], log => ([], log)
  | i :: rest, log => sendLoop rest (log ++ [i])

/-- Model of _send_tasks: drain the queue front to back, dispatching each
popped invocation through original_apply_async. -/
def send_tasks (s : LocalState) : LocalState :=
  let r := sendLoop s.task_queue s.dispatched
  { task_queue := r.1, dispatched := r.2 }

/-- Outcome of running the _send_tasks loop when the transport may raise:
the queue contents left behind, the successful dispatch log, and whether
an exception escaped to the caller. -/
structure DrainOutcome where
  task_queue : List Invocation
  dispatched : List Invocation
  raised : Bool
deriving DecidableEq, Repr

/-- The while loop of _send_tasks with a fallible transport: ok i says
whether dispatching i succeeds.  Each invocation is popped before its
dispatch is attempted, and the loop has no exception handler, so a raise
leaves the loop at once with the popped item gone and the rest still
queued. -/
def sendLoopF (ok : Invocation → Bool) :
    List Invocation → List Invocation → DrainOutcome
  | [], log => ⟨[], log, false⟩
  | i :: rest, log =>
    if ok i then sendLoopF ok rest (log ++ [i])
    else ⟨rest, log, true⟩

/-- Model of _send_tasks with a fallible transport. -/
def send_tasksF (ok : Invocation → Bool) (s : LocalState) : DrainOutcome :=
  sendLoopF ok s.task_queue s.dispatched

/-- Fold a sequence of submissions through apply_async, discarding the
per-call return values. -/
def submitAll (conn : Connection) (conf : CeleryConf) :
    LocalState → List Invocation → LocalState
  | s, [] => s
  | s, i :: rest => submitAll conn conf (apply_async conn conf s i).1 rest

lemma sendLoop_eq (q log : List Invocation) :
    sendLoop q log = ([], log ++ q) := by
  induction q generalizing log with
  | nil => simp [sendLoop]
  | cons i rest ih => simp [sendLoop, ih]

lemma send_tasks_eq (s : LocalState) :
    send_tasks s = ⟨[], s.dispatched ++ s.task_queue⟩ := by
  simp [send_tasks, sendLoop_eq]

lemma submitAll_gated (conn : Connection) (conf : CeleryConf)
    (hatom : conn.in_atomic_block = true)
    (heager : conf.CELERY_ALWAYS_EAGER = false) :
    ∀ (invs : List Invocation) (s : LocalState),
      submitAll conn conf s invs =
        { s with task_queue := s.task_queue ++ invs } := by
  intro invs
  induction invs with
  | nil => intro s; simp [submitAll]
  | cons i rest ih =>
    intro s
    simp [submitAll, apply_async, hatom, heager, ih]

/-- C1: N tasks submitted through the gated apply_async while a
transaction is active (atomic block, eager mode off) are all buffered in
submission order; when the transaction commits and _send_tasks runs, all
N are dispatched via original_apply_async exactly once, in FIFO order,
and the buffer is empty afterward. -/
theorem gated_commit_dispatches_all_fifo (conn : Connection)
    (conf : CeleryConf) (invs d0 : List Invocation)
    (hatom : conn.in_atomic_block = true)
    (heager : conf.CELERY_ALWAYS_EAGER = false) :
    (submitAll conn conf ⟨[], d0⟩ invs).task_queue = invs ∧
    send_tasks (submitAll conn conf ⟨[], d0⟩ invs) = ⟨[], d0 ++ invs⟩ := by
  rw [submitAll_gated conn conf hatom heager, send_tasks_eq]
  simp

/-- Witness for C1 on a concrete three-task run. -/
theorem gated_commit_dispatches_all_fifo_witness :
    (submitAll ⟨true⟩ ⟨false⟩ ⟨[], []⟩
        [⟨1, [], []⟩, ⟨2, [], []⟩, ⟨3, [], []⟩]).task_queue =
      [⟨1, [], []⟩, ⟨2, [], []⟩, ⟨3, [], []⟩] ∧
    send_tasks (submitAll ⟨true⟩ ⟨false⟩ ⟨[], []⟩
        [⟨1, [], []⟩, ⟨2, [], []⟩, ⟨3, [], []⟩]) =
      ⟨[], [⟨1, [], []⟩, ⟨2, [], []⟩, ⟨3, [], []⟩]⟩ :=
  gated_commit_dispatches_all_fifo ⟨true⟩ ⟨false⟩
    [⟨1, [], []⟩, ⟨2, [], []⟩, ⟨3, [], []⟩] [] rfl rfl

/-- C2: if the transaction rolls back, _discard_tasks leaves the buffer
empty and none of the buffered submissions is ever dispatched: the
dispatch log after the rollback is exactly what it was before the
submissions were made. -/
theorem rollback_discards_all (conn : Connection) (conf : CeleryConf)
    (invs : List Invocation) (q0 d0 : List Invocation)
    (hatom : conn.in_atomic_block = true)
    (heager : conf.CELERY_ALWAYS_EAGER = false) :
    discard_tasks (submitAll conn conf ⟨q0, d0⟩ invs) = ⟨[], d0⟩ := by
  rw [submitAll_gated conn conf hatom heager]
  simp [discard_tasks]

/-- Witness for C2 on a concrete two-task run. -/
theorem rollback_discards_all_witness :
    discard_tasks (submitAll ⟨true⟩ ⟨false⟩ ⟨[], []⟩
        [⟨1, [], []⟩, ⟨2, [], []⟩]) = ⟨[], []⟩ :=
  rollback_discards_all ⟨true⟩ ⟨false⟩ [⟨1, [], []⟩, ⟨2, [], []⟩] [] []
    rfl rfl

/-- C3: the submission gate.  If no transaction is active or eager mode
is on, apply_async dispatches at once through the transport, returns the
transport result, and leaves the queue alone; otherwise it appends
exactly one invocation to the tail of the queue, dispatches nothing, and
returns no result. -/
theorem apply_async_gate (conn : Connection) (conf : CeleryConf)
    (s : LocalState) (inv : Invocation) :
    (conn.in_atomic_block = false ∨ conf.CELERY_ALWAYS_EAGER = true →
      (apply_async conn conf s inv).2 = some inv ∧
      (apply_async conn conf s inv).1.dispatched = s.dispatched ++ [inv] ∧
      (apply_async conn conf s inv).1.task_queue = s.task_queue) ∧
    (conn.in_atomic_block = true ∧ conf.CELERY_ALWAYS_EAGER = false →
      (apply_async conn conf s inv).2 = none ∧
      (apply_async conn conf s inv).1.task_queue = s.task_queue ++ [inv] ∧
      (apply_async conn conf s inv).1.dispatched = s.dispatched) := by
  constructor
  · rintro (h | h) <;>
      simp [apply_async, original_apply_async, h]
  · rintro ⟨h1, h2⟩
    simp [apply_async, h1, h2]

/-- Witness for C3: outside an atomic block the submission is sent at
once; inside one with eager off it is buffered. -/
theorem apply_async_gate_witness :
    ((apply_async ⟨false⟩ ⟨false⟩ ⟨[], []⟩ ⟨7, [], []⟩).2 = some ⟨7, [], []⟩ ∧
      (apply_async ⟨false⟩ ⟨false⟩ ⟨[], []⟩ ⟨7, [], []⟩).1.dispatched =
        [⟨7, [], []⟩] ∧
      (apply_async ⟨false⟩ ⟨false⟩ ⟨[], []⟩ ⟨7, [], []⟩).1.task_queue = []) ∧
    ((apply_async ⟨true⟩ ⟨false⟩ ⟨[], []⟩ ⟨7, [], []⟩).2 = none ∧
      (apply_async ⟨true⟩ ⟨false⟩ ⟨[], []⟩ ⟨7, [], []⟩).1.task_queue =
        [⟨7, [], []⟩] ∧
      (apply_async ⟨true⟩ ⟨false⟩ ⟨[], []⟩ ⟨7, [], []⟩).1.dispatched = []) := by
  refine ⟨?_, ?_⟩
  · have h := (apply_async_gate ⟨false⟩ ⟨false⟩ ⟨[], []⟩ ⟨7, [], []⟩).1
      (Or.inl rfl)
    simpa using h
  · have h := (apply_async_gate ⟨true⟩ ⟨false⟩ ⟨[], []⟩ ⟨7, [], []⟩).2
      ⟨rfl, rfl⟩
    simpa using h

/-- C5: original_apply_async is the bypass entry point: even while a
transaction is active and uncommitted it dispatches the task to the
transport immediately (the dispatch log grows right away), buffers
nothing, and hands the transport result back; it never consults the
connection at all. -/
theorem bypass_dispatches_immediately (conn : Connection) (s : LocalState)
    (inv : Invocation) (hatom : conn.in_atomic_block = true) :
    (original_apply_async s inv).1.dispatched = s.dispatched ++ [inv] ∧
    (original_apply_async s inv).1.task_queue = s.task_queue ∧
    (original_apply_async s inv).2 = inv := by
  simp [original_apply_async]

/-- Witness for C5 with an active transaction. -/
theorem bypass_dispatches_immediately_witness :
    (original_apply_async ⟨[], []⟩ ⟨9, [], []⟩).1.dispatched =
        [⟨9, [], []⟩] ∧
    (original_apply_async ⟨[], []⟩ ⟨9, [], []⟩).1.task_queue = [] ∧
    (original_apply_async ⟨[], []⟩ ⟨9, [], []⟩).2 = ⟨9, [], []⟩ := by
  have h := bypass_dispatches_immediately ⟨true⟩ ⟨[], []⟩ ⟨9, [], []⟩ rfl
  simpa using h

/-- C6: draining an empty buffer is a no-op: _discard_tasks and
_send_tasks leave the state untouched, dispatch nothing, and (being total
functions in the model) raise nothing. -/
theorem drain_empty_noop (s : LocalState) (hempty : s.task_queue = []) :
    discard_tasks s = s ∧ send_tasks s = s := by
  obtain ⟨q, d⟩ := s
  simp only at hempty
  subst hempty
  constructor
  · simp [discard_tasks]
  · rw [send_tasks_eq]
    simp

/-- Witness for C6 on a state with an empty queue and a nonempty
dispatch history. -/
theorem drain_empty_noop_witness :
    discard_tasks ⟨[], [⟨5, [], []⟩]⟩ = ⟨[], [⟨5, [], []⟩]⟩ ∧
    send_tasks ⟨[], [⟨5, [], []⟩]⟩ = ⟨[], [⟨5, [], []⟩]⟩ :=
  drain_empty_noop ⟨[], [⟨5, [], []⟩]⟩ rfl

lemma sendLoopF_split (ok : Invocation → Bool) (f : Invocation)
    (hf : ok f = false) :
    ∀ (pre : List Invocation), (∀ i ∈ pre, ok i = true) →
      ∀ (post log : List Invocation),
        sendLoopF ok (pre ++ f :: post) log = ⟨post, log ++ pre, true⟩ := by
  intro pre
  induction pre with
  | nil => intro _ post log; simp [sendLoopF, hf]
  | cons i rest ih =>
    intro hpre post log
    have hi : ok i = true := hpre i (by simp)
    have hrest : ∀ j ∈ rest, ok j = true := fun j hj => hpre j (by simp [hj])
    simp [sendLoopF, hi, ih hrest]

/-- C4 counterexample: with a two-element buffer whose first dispatch
raises, the sibling invocation is neither dispatched (the log stays
empty) nor drained (it is still in the queue): the drain does not
continue past a failure. -/
theorem drain_failure_not_isolated_counterexample :
    (send_tasksF (fun i => i.task == 1) ⟨[⟨0, [], []⟩, ⟨1, [], []⟩], []⟩).dispatched
        = [] ∧
      ⟨1, [], []⟩ ∈ (send_tasksF (fun i => i.task == 1)
        ⟨[⟨0, [], []⟩, ⟨1, [], []⟩], []⟩).task_queue ∧
      (send_tasksF (fun i => i.task == 1)
        ⟨[⟨0, [], []⟩, ⟨1, [], []⟩], []⟩).raised = true := by
  decide

/-- C4 as amended: _send_tasks has no exception handler, so when the
dispatch of one buffered invocation raises, the drain stops at once: the
invocations before it were dispatched in order, the failed one has been
popped and is not re-queued, every later sibling stays in the buffer
undispatched, and the exception propagates to the caller. -/
theorem drain_failure_halts (ok : Invocation → Bool)
    (pre : List Invocation) (f : Invocation) (post d0 : List Invocation)
    (hpre : ∀ i ∈ pre, ok i = true) (hf : ok f = false) :
    send_tasksF ok ⟨pre ++ f :: post, d0⟩ = ⟨post, d0 ++ pre, true⟩ := by
  simp [send_tasksF, sendLoopF_split ok f hf pre hpre post d0]

/-- Witness for the amended C4: the first invocation dispatches, the
second raises, the third stays queued. -/
theorem drain_failure_halts_witness :
    send_tasksF (fun i => i.task == 1)
        ⟨[⟨1, [], []⟩, ⟨0, [], []⟩, ⟨2, [], []⟩], []⟩ =
      ⟨[⟨2, [], []⟩], [⟨1, [], []⟩], true⟩ :=
  drain_failure_halts (fun i => i.task == 1) [⟨1, [], []⟩] ⟨0, [], []⟩
    [⟨2, [], []⟩] [] (by decide) (by decide)

/-- C10: during _send_tasks each invocation is removed from the buffer
before its dispatch is attempted, so if the dispatch of the k-th of N
buffered invocations raises, exactly the first k have left the buffer
(the failed one is not re-queued), the remaining N - k stay queued, and
the exception reaches the caller of the drain. -/
theorem pop_before_dispatch (ok : Invocation → Bool)
    (pre : List Invocation) (f : Invocation) (post d0 : List Invocation)
    (hpre : ∀ i ∈ pre, ok i = true) (hf : ok f = false) :
    (send_tasksF ok ⟨pre ++ f :: post, d0⟩).task_queue = post ∧
    (send_tasksF ok ⟨pre ++ f :: post, d0⟩).task_queue.length =
      (pre ++ f :: post).length - (pre.length + 1) ∧
    (send_tasksF ok ⟨pre ++ f :: post, d0⟩).dispatched = d0 ++ pre ∧
    (send_tasksF ok ⟨pre ++ f :: post, d0⟩).raised = true := by
  have h := sendLoopF_split ok f hf pre hpre post d0
  simp [send_tasksF, h]
  omega

/-- Witness for C10: the second of three invocations raises; one sibling
remains queued and the exception escapes. -/
theorem pop_before_dispatch_witness :
    (send_tasksF (fun i => i.task == 3)
        ⟨[⟨3, [], []⟩, ⟨4, [], []⟩, ⟨5, [], []⟩], []⟩).task_queue =
      [⟨5, [], []⟩] ∧
    (send_tasksF (fun i => i.task == 3)
        ⟨[⟨3, [], []⟩, ⟨4, [], []⟩, ⟨5, [], []⟩], []⟩).task_queue.length =
      ([⟨3, [], []⟩, ⟨4, [], []⟩, ⟨5, [], []⟩] :
        List Invocation).length - (([⟨3, [], []⟩] :
        List Invocation).length + 1) ∧
    (send_tasksF (fun i => i.task == 3)
        ⟨[⟨3, [], []⟩, ⟨4, [], []⟩, ⟨5, [], []⟩], []⟩).dispatched =
      [⟨3, [], []⟩] ∧
    (send_tasksF (fun i => i.task == 3)
        ⟨[⟨3, [], []⟩, ⟨4, [], []⟩, ⟨5, [], []⟩], []⟩).raised = true := by
  have h := pop_before_dispatch (fun i => i.task == 3) [⟨3, [], []⟩]
    ⟨4, [], []⟩ [⟨5, [], []⟩] [] (by decide) (by decide)
  simpa using h

/-- One transaction-lifecycle event seen by a single execution context:
a gated submission while the transaction is active, the post_commit
signal (running _send_tasks), or the post_rollback signal (running
_discard_tasks). -/
inductive TxOp where
  | submit (inv : Invocation)
  | commit
  | rollback
deriving DecidableEq, Repr

/-- Accounting state of one execution context: the live task_queue plus
ghost logs of every invocation ever appended to the buffer, every one
dispatched from it by _send_tasks, and every one dropped by
_discard_tasks. -/
structure AcctState where
  task_queue : List Invocation
  appended : List Invocation
  sent : List Invocation
  discarded : List Invocation
deriving DecidableEq, Repr

/-- Transition of the accounting state on one lifecycle event: submit is
the buffering branch of apply_async, commit runs the _send_tasks loop,
rollback runs _discard_tasks; the ghost logs record what happened. -/
def acctStep (s : AcctState) : TxOp → AcctState
  | .submit inv =>
    { s with task_queue := s.task_queue ++ [inv],
             appended := s.appended ++ [inv] }
  | .commit =>
    let r := sendLoop s.task_queue s.sent
    { s with task_queue := r.1, sent := r.2 }
  | .rollback =>
    { s with task_queue := (discard_tasks ⟨s.task_queue, s.sent⟩).task_queue,
             discarded := s.discarded ++ s.task_queue }

/-- Run a context through a sequence of lifecycle events. -/
def acctRun : AcctState → List TxOp → AcctState
  | s, [] => s
  | s, op :: rest => acctRun (acctStep s op) rest

lemma perm_swap_last (a b c : List Invocation) :
    (a ++ b ++ c).Perm (a ++ c ++ b) := by
  simp only [List.append_assoc]
  exact List.Perm.append_left a List.perm_append_comm

lemma acctStep_perm (s : AcctState)
    (h : s.appended.Perm (s.sent ++ s.discarded ++ s.task_queue)) :
    ∀ op : TxOp, (acctStep s op).appended.Perm
      ((acctStep s op).sent ++ (acctStep s op).discarded ++
        (acctStep s op).task_queue) := by
  intro op
  cases op with
  | submit inv =>
    simpa [acctStep, ← List.append_assoc] using h.append_right [inv]
  | commit =>
    simp only [acctStep, sendLoop_eq]
    rw [List.append_nil]
    exact h.trans (perm_swap_last s.sent s.discarded s.task_queue)
  | rollback =>
    simp only [acctStep, discard_tasks]
    rw [List.append_nil, ← List.append_assoc]
    exact h

lemma acctRun_perm (t : List TxOp) :
    ∀ s : AcctState,
      s.appended.Perm (s.sent ++ s.discarded ++ s.task_queue) →
      (acctRun s t).appended.Perm
        ((acctRun s t).sent ++ (acctRun s t).discarded ++
          (acctRun s t).task_queue) := by
  induction t with
  | nil => intro s h; exact h
  | cons op rest ih =>
    intro s h
    exact ih (acctStep s op) (acctStep_perm s h op)

/-- C7: over any sequence of lifecycle events starting from a fresh
context, once the buffer has been drained by a terminal event (the final
task_queue is empty), the invocations ever appended to the buffer are a
permutation of those dispatched by _send_tasks together with those
dropped by _discard_tasks, and in particular the append count equals the
dispatch count plus the discard count: nothing is lost and nothing is
dispatched twice. -/
theorem buffer_accounting (t : List TxOp)
    (hres : (acctRun ⟨[], [], [], []⟩ t).task_queue = []) :
    (acctRun ⟨[], [], [], []⟩ t).appended.Perm
      ((acctRun ⟨[], [], [], []⟩ t).sent ++
        (acctRun ⟨[], [], [], []⟩ t).discarded) ∧
    (acctRun ⟨[], [], [], []⟩ t).appended.length =
      (acctRun ⟨[], [], [], []⟩ t).sent.length +
        (acctRun ⟨[], [], [], []⟩ t).discarded.length := by
  have h := acctRun_perm t ⟨[], [], [], []⟩ (by simp)
  rw [hres, List.append_nil] at h
  refine ⟨h, ?_⟩
  simpa using h.length_eq

/-- Witness for C7 on a run with a commit, a rollback and an interleaved
extra submission. -/
theorem buffer_accounting_witness :
    (acctRun ⟨[], [], [], []⟩
        [.submit ⟨1, [], []⟩, .submit ⟨2, [], []⟩, .commit,
          .submit ⟨3, [], []⟩, .rollback]).task_queue = [] ∧
    (acctRun ⟨[], [], [], []⟩
        [.submit ⟨1, [], []⟩, .submit ⟨2, [], []⟩, .commit,
          .submit ⟨3, [], []⟩, .rollback]).appended.Perm
      ((acctRun ⟨[], [], [], []⟩
          [.submit ⟨1, [], []⟩, .submit ⟨2, [], []⟩, .commit,
            .submit ⟨3, [], []⟩, .rollback]).sent ++
        (acctRun ⟨[], [], [], []⟩
          [.submit ⟨1, [], []⟩, .submit ⟨2, [], []⟩, .commit,
            .submit ⟨3, [], []⟩, .rollback]).discarded) ∧
    (acctRun ⟨[], [], [], []⟩
        [.submit ⟨1, [], []⟩, .submit ⟨2, [], []⟩, .commit,
          .submit ⟨3, [], []⟩, .rollback]).appended.length =
      (acctRun ⟨[], [], [], []⟩
          [.submit ⟨1, [], []⟩, .submit ⟨2, [], []⟩, .commit,
            .submit ⟨3, [], []⟩, .rollback]).sent.length +
        (acctRun ⟨[], [], [], []⟩
          [.submit ⟨1, [], []⟩, .submit ⟨2, [], []⟩, .commit,
            .submit ⟨3, [], []⟩, .rollback]).discarded.length := by
  have h := buffer_accounting
    [.submit ⟨1, [], []⟩, .submit ⟨2, [], []⟩, .commit,
      .submit ⟨3, [], []⟩, .rollback] (by decide)
  exact ⟨by decide, h.1, h.2⟩

/-- Lookup in the thread-local registry, modelling reading the
task_queue key of a thread's _thread_data dict: the first entry whose
thread id matches, if any. -/
def qlookup : List (Nat × List Invocation) → Nat → Option (List Invocation)
  | [], _ => none
  | (t, q) :: rest, tid => if t = tid then some q else qlookup rest tid

/-- Model of _get_task_queue, i.e. setdefault on the calling thread's
dict: return the registered queue if the thread has one; otherwise
register a fresh empty queue for it and return that.  The second
component is the registry after the call. -/
def get_task_queue (reg : List (Nat × List Invocation)) (tid : Nat) :
    List Invocation × List (Nat × List Invocation) :=
  match qlookup reg tid with
  | some q => (q, reg)
  | none => ([], reg ++ [(tid, [])])

lemma qlookup_append_self (tid : Nat) :
    ∀ reg : List (Nat × List Invocation), qlookup reg tid = none →
      qlookup (reg ++ [(tid, [])]) tid = some [] := by
  intro reg
  induction reg with
  | nil => intro _; simp [qlookup]
  | cons p rest ih =>
    intro h
    by_cases hp : p.1 = tid
    · simp [qlookup, hp] at h
    · simpa [qlookup, hp] using ih (by simpa [qlookup, hp] using h)

/-- C8: querying the buffer of a never-registered execution context is
not an error: _get_task_queue returns a fresh empty queue (registering it
for the context), and a repeated call from the same context returns the
very queue the first call produced, with the registry unchanged. -/
theorem get_task_queue_unregistered (reg : List (Nat × List Invocation))
    (tid : Nat) (hnone : qlookup reg tid = none) :
    get_task_queue reg tid = ([], reg ++ [(tid, [])]) ∧
    get_task_queue (get_task_queue reg tid).2 tid =
      ((get_task_queue reg tid).1, (get_task_queue reg tid).2) := by
  have h1 : get_task_queue reg tid = ([], reg ++ [(tid, [])]) := by
    simp [get_task_queue, hnone]
  refine ⟨h1, ?_⟩
  rw [h1]
  simp [get_task_queue, qlookup_append_self tid reg hnone]

/-- Witness for C8: thread 2 is absent from a one-entry registry. -/
theorem get_task_queue_unregistered_witness :
    get_task_queue [(1, [⟨4, [], []⟩])] 2 =
      ([], [(1, [⟨4, [], []⟩]), (2, [])]) ∧
    get_task_queue (get_task_queue [(1, [⟨4, [], []⟩])] 2).2 2 =
      ((get_task_queue [(1, [⟨4, [], []⟩])] 2).1,
        (get_task_queue [(1, [⟨4, [], []⟩])] 2).2) :=
  get_task_queue_unregistered [(1, [⟨4, [], []⟩])] 2 (by decide)

/-- Write a thread's queue back into the registry: replace the thread's
entry if present, register it otherwise.  This models the fact that the
list obtained from _get_task_queue is the thread's own stored list, so
mutating it updates the registry in place. -/
def setQueue : List (Nat × List Invocation) → Nat → List Invocation →
    List (Nat × List Invocation)
  | [], tid, q => [(tid, q)]
  | (t, q0) :: rest, tid, q =>
    if t = tid then (tid, q) :: rest else (t, q0) :: setQueue rest tid q

/-- Whole-process state: the per-thread registry (_thread_data), the set
of threads currently inside an atomic block (each thread's connection
state), and the global ordered log of transport dispatches tagged with
the dispatching thread. -/
structure MState where
  threads : List (Nat × List Invocation)
  atomic : List Nat
  dispatched : List (Nat × Invocation)
deriving DecidableEq, Repr

/-- One event in a multi-threaded run, tagged with the thread it runs
on: entering an atomic block, a gated apply_async submission, the
post_commit signal, or the post_rollback signal. -/
inductive MOp where
  | txBegin (tid : Nat)
  | submit (tid : Nat) (inv : Invocation)
  | commit (tid : Nat)
  | rollback (tid : Nat)
deriving DecidableEq, Repr

/-- Thread on which an event runs. -/
def MOp.tid : MOp → Nat
  | .txBegin t => t
  | .submit t _ => t
  | .commit t => t
  | .rollback t => t

/-- Transition of the whole-process state on one event.  submit is
PostTransactionTask.apply_async on the event's thread (buffer when that
thread's connection is in an atomic block and eager mode is off,
dispatch at once otherwise); commit runs _send_tasks on that thread and
leaves its atomic block; rollback runs _discard_tasks likewise. -/
def mStep (eager : Bool) (m : MState) : MOp → MState
  | .txBegin tid => { m with atomic := tid :: m.atomic }
  | .submit tid inv =>
    if decide (tid ∈ m.atomic) && !eager then
      let r := get_task_queue m.threads tid
      { m with threads := setQueue r.2 tid (r.1 ++ [inv]) }
    else
      { m with dispatched := m.dispatched ++ [(tid, inv)] }
  | .commit tid =>
    let r := get_task_queue m.threads tid
    let d := sendLoop r.1 []
    { threads := setQueue r.2 tid d.1,
      atomic := m.atomic.filter (fun x => decide (x ≠ tid)),
      dispatched := m.dispatched ++ d.2.map (fun i => (tid, i)) }
  | .rollback tid =>
    let r := get_task_queue m.threads tid
    { m with
        threads := setQueue r.2 tid (discard_tasks ⟨r.1, []⟩).task_queue,
        atomic := m.atomic.filter (fun x => decide (x ≠ tid)) }

/-- Run a sequence of events through the whole-process state. -/
def mRun (eager : Bool) : MState → List MOp → MState
  | m, [] => m
  | m, op :: rest => mRun eager (mStep eager m op) rest

/-- Buffer of one thread as stored in the registry. -/
def queueOf (m : MState) (tid : Nat) : List Invocation :=
  (qlookup m.threads tid).getD []

/-- Whether a thread's connection is inside an atomic block. -/
def inAtomicOf (m : MState) (tid : Nat) : Bool :=
  decide (tid ∈ m.atomic)

/-- Dispatches made on behalf of one thread, in order. -/
def dispatchedBy (m : MState) (tid : Nat) : List Invocation :=
  (m.dispatched.filter (fun p => decide (p.1 = tid))).map (fun p => p.2)

/-- All a single thread can observe of the process state: its buffer,
its connection state and its dispatches. -/
def viewOf (m : MState) (tid : Nat) : List Invocation × Bool × List Invocation :=
  (queueOf m tid, inAtomicOf m tid, dispatchedBy m tid)

/-- The events of a run that execute on a given thread, in order. -/
def projOps (t : List MOp) (tid : Nat) : List MOp :=
  t.filter (fun op => decide (op.tid = tid))

/-- Transition of a single thread's view under one of its own events:
the thread-local semantics of the code. -/
def lStep (eager : Bool) (v : List Invocation × Bool × List Invocation) :
    MOp → List Invocation × Bool × List Invocation
  | .txBegin _ => (v.1, true, v.2.2)
  | .submit _ inv =>
    if v.2.1 && !eager then (v.1 ++ [inv], v.2.1, v.2.2)
    else (v.1, v.2.1, v.2.2 ++ [inv])
  | .commit _ => ([], false, v.2.2 ++ v.1)
  | .rollback _ => ([], false, v.2.2)

/-- Run of the single-thread semantics. -/
def lRun (eager : Bool) :
    (List Invocation × Bool × List Invocation) → List MOp →
      List Invocation × Bool × List Invocation
  | v, [] => v
  | v, op :: rest => lRun eager (lStep eager v op) rest

lemma qlookup_setQueue_self (tid : Nat) (q : List Invocation) :
    ∀ reg : List (Nat × List Invocation),
      qlookup (setQueue reg tid q) tid = some q := by
  intro reg
  induction reg with
  | nil => simp [setQueue, qlookup]
  | cons p rest ih =>
    by_cases hp : p.1 = tid
    · simp [setQueue, hp, qlookup]
    · simpa [setQueue, hp, qlookup] using ih

lemma qlookup_setQueue_other (t tid : Nat) (h : t ≠ tid)
    (q : List Invocation) :
    ∀ reg : List (Nat × List Invocation),
      qlookup (setQueue reg t q) tid = qlookup reg tid := by
  intro reg
  induction reg with
  | nil => simp [setQueue, qlookup, h]
  | cons p rest ih =>
    by_cases hp : p.1 = t
    · simp [setQueue, hp, qlookup, h, hp.symm ▸ h]
    · by_cases h2 : p.1 = tid
      · simp [setQueue, hp, qlookup, h2, Ne.symm h]
      · simp [setQueue, hp, qlookup, h2, ih]

lemma qlookup_append_one_other (t tid : Nat) (h : t ≠ tid)
    (q : List Invocation) :
    ∀ reg : List (Nat × List Invocation),
      qlookup (reg ++ [(t, q)]) tid = qlookup reg tid := by
  intro reg
  induction reg with
  | nil => simp [qlookup, h]
  | cons p rest ih =>
    by_cases hp : p.1 = tid
    · simp [qlookup, hp]
    · simpa [qlookup, hp] using ih

lemma get_task_queue_fst (reg : List (Nat × List Invocation)) (tid : Nat) :
    (get_task_queue reg tid).1 = (qlookup reg tid).getD [] := by
  cases h : qlookup reg tid <;> simp [get_task_queue, h]

lemma get_task_queue_snd_self (reg : List (Nat × List Invocation))
    (tid : Nat) :
    qlookup (get_task_queue reg tid).2 tid =
      some (get_task_queue reg tid).1 := by
  cases h : qlookup reg tid with
  | none => simp [get_task_queue, h, qlookup_append_self tid reg h]
  | some q => simp [get_task_queue, h]

lemma get_task_queue_snd_other (t tid : Nat) (h : t ≠ tid)
    (reg : List (Nat × List Invocation)) :
    qlookup (get_task_queue reg t).2 tid = qlookup reg tid := by
  cases hq : qlookup reg t with
  | none => simp [get_task_queue, hq, qlookup_append_one_other t tid h]
  | some q => simp [get_task_queue, hq]

lemma mStep_view_other (eager : Bool) (m : MState) (op : MOp) (tid : Nat)
    (h : op.tid ≠ tid) :
    viewOf (mStep eager m op) tid = viewOf m tid := by
  cases op with
  | txBegin t =>
    simp only [MOp.tid] at h
    simp [mStep, viewOf, queueOf, inAtomicOf, dispatchedBy, h, Ne.symm h]
  | submit t inv =>
    simp only [MOp.tid] at h
    by_cases hc : decide (t ∈ m.atomic) && !eager
    · simp [mStep, hc, viewOf, queueOf, inAtomicOf, dispatchedBy,
        qlookup_setQueue_other t tid h, get_task_queue_snd_other t tid h]
    · simp [mStep, hc, viewOf, queueOf, inAtomicOf, dispatchedBy,
        List.filter_append, h]
  | commit t =>
    simp only [MOp.tid] at h
    have hm : ∀ q : List Invocation,
        (q.map (fun i => (t, i))).filter
          (fun p => decide (p.1 = tid)) = [] := by
      intro q
      induction q with
      | nil => simp
      | cons i rest ih => simp [h, ih]
    simp [mStep, viewOf, queueOf, inAtomicOf, dispatchedBy, sendLoop_eq,
      qlookup_setQueue_other t tid h, get_task_queue_snd_other t tid h,
      List.filter_append, hm, List.mem_filter, h, Ne.symm h]
  | rollback t =>
    simp only [MOp.tid] at h
    simp [mStep, viewOf, queueOf, inAtomicOf, dispatchedBy, discard_tasks,
      qlookup_setQueue_other t tid h, get_task_queue_snd_other t tid h,
      List.mem_filter, Ne.symm h]

lemma mStep_view_self (eager : Bool) (m : MState) (op : MOp) :
    viewOf (mStep eager m op) op.tid = lStep eager (viewOf m op.tid) op := by
  cases op with
  | txBegin t =>
    simp [mStep, lStep, MOp.tid, viewOf, queueOf, inAtomicOf, dispatchedBy]
  | submit t inv =>
    cases hb : decide (t ∈ m.atomic) && !eager with
    | true =>
      simp [mStep, lStep, MOp.tid, viewOf, queueOf, inAtomicOf,
        dispatchedBy, hb, qlookup_setQueue_self, get_task_queue_fst]
    | false =>
      simp [mStep, lStep, MOp.tid, viewOf, queueOf, inAtomicOf,
        dispatchedBy, hb, List.filter_append]
  | commit t =>
    have hm : ∀ q : List Invocation,
        ((q.map (fun i => (t, i))).filter
          (fun p => decide (p.1 = t))).map (fun p => p.2) = q := by
      intro q
      induction q with
      | nil => simp
      | cons i rest ih => simp [ih]
    simp [mStep, lStep, MOp.tid, viewOf, queueOf, inAtomicOf, dispatchedBy,
      sendLoop_eq, qlookup_setQueue_self, get_task_queue_fst,
      List.filter_append, List.mem_filter, hm]
  | rollback t =>
    simp [mStep, lStep, MOp.tid, viewOf, queueOf, inAtomicOf, dispatchedBy,
      discard_tasks, qlookup_setQueue_self, List.mem_filter]

lemma mRun_view (eager : Bool) (tid : Nat) :
    ∀ (t : List MOp) (m : MState),
      viewOf (mRun eager m t) tid =
        lRun eager (viewOf m tid) (projOps t tid) := by
  intro t
  induction t with
  | nil => intro m; simp [mRun, lRun, projOps]
  | cons op rest ih =>
    intro m
    by_cases hop : op.tid = tid
    · have hkeep : projOps (op :: rest) tid = op :: projOps rest tid := by
        simp [projOps, hop]
      rw [hkeep]
      show viewOf (mRun eager (mStep eager m op) rest) tid =
        lRun eager (lStep eager (viewOf m tid) op) (projOps rest tid)
      rw [ih (mStep eager m op)]
      have h2 := mStep_view_self eager m op
      rw [hop] at h2
      rw [h2]
    · have hdrop : projOps (op :: rest) tid = projOps rest tid := by
        simp [projOps, hop]
      rw [hdrop]
      show viewOf (mRun eager (mStep eager m op) rest) tid =
        lRun eager (viewOf m tid) (projOps rest tid)
      rw [ih (mStep eager m op), mStep_view_other eager m op tid hop]

lemma lRun_append (eager : Bool) :
    ∀ (l1 l2 : List MOp) (v : List Invocation × Bool × List Invocation),
      lRun eager v (l1 ++ l2) = lRun eager (lRun eager v l1) l2 := by
  intro l1
  induction l1 with
  | nil => intro l2 v; simp [lRun]
  | cons op rest ih => intro l2 v; simp [lRun, ih]

lemma lRun_submits (tid : Nat) (ta : List Invocation) :
    ∀ (q snt : List Invocation),
      lRun false (q, true, snt) (ta.map (MOp.submit tid)) =
        (q ++ ta, true, snt) := by
  induction ta with
  | nil => intro q snt; simp [lRun]
  | cons i rest ih =>
    intro q snt
    simp only [List.map_cons, lRun, lStep]
    simpa using ih (q ++ [i]) snt

/-- C9: buffers are isolated per thread.  First, a step of one thread
never changes another thread's view (its buffer, its connection state,
its dispatches).  Consequently, for any interleaved run in which thread
A's own events are a transaction submitting the tasks ta and committing,
while thread B's own events are a transaction submitting the tasks tb
and rolling back, A's tasks are dispatched exactly, in order, B's tasks
are never dispatched, and both buffers end empty. -/
theorem buffer_isolation (A B : Nat) (ta tb : List Invocation)
    (t : List MOp) (hAB : A ≠ B)
    (hA : projOps t A =
      MOp.txBegin A :: (ta.map (MOp.submit A) ++ [MOp.commit A]))
    (hB : projOps t B =
      MOp.txBegin B :: (tb.map (MOp.submit B) ++ [MOp.rollback B])) :
    (∀ (eager : Bool) (m : MState) (op : MOp) (tid : Nat), op.tid ≠ tid →
      viewOf (mStep eager m op) tid = viewOf m tid) ∧
    dispatchedBy (mRun false ⟨[], [], []⟩ t) A = ta ∧
    dispatchedBy (mRun false ⟨[], [], []⟩ t) B = [] ∧
    queueOf (mRun false ⟨[], [], []⟩ t) A = [] ∧
    queueOf (mRun false ⟨[], [], []⟩ t) B = [] := by
  have h0 : ∀ tid : Nat, viewOf (⟨[], [], []⟩ : MState) tid =
      ([], false, []) := by
    intro tid
    simp [viewOf, queueOf, inAtomicOf, dispatchedBy, qlookup]
  have hvA : viewOf (mRun false ⟨[], [], []⟩ t) A = ([], false, ta) := by
    rw [mRun_view false A t ⟨[], [], []⟩, hA, h0 A]
    simp only [lRun, lStep]
    rw [lRun_append false (ta.map (MOp.submit A)) [MOp.commit A],
      lRun_submits A ta [] []]
    simp [lRun, lStep]
  have hvB : viewOf (mRun false ⟨[], [], []⟩ t) B = ([], false, []) := by
    rw [mRun_view false B t ⟨[], [], []⟩, hB, h0 B]
    simp only [lRun, lStep]
    rw [lRun_append false (tb.map (MOp.submit B)) [MOp.rollback B],
      lRun_submits B tb [] []]
    simp [lRun, lStep]
  simp only [viewOf, Prod.mk.injEq] at hvA hvB
  exact ⟨fun eager m op tid h => mStep_view_other eager m op tid h,
    hvA.2.2, hvB.2.2, hvA.1, hvB.1⟩

/-- Witness for C9 on a concrete interleaving of two threads: thread 0
commits one task, thread 1 rolls one back. -/
theorem buffer_isolation_witness :
    dispatchedBy (mRun false ⟨[], [], []⟩
        [MOp.txBegin 0, MOp.txBegin 1, MOp.submit 1 ⟨2, [], []⟩,
          MOp.submit 0 ⟨1, [], []⟩, MOp.rollback 1, MOp.commit 0]) 0 =
      [⟨1, [], []⟩] ∧
    dispatchedBy (mRun false ⟨[], [], []⟩
        [MOp.txBegin 0, MOp.txBegin 1, MOp.submit 1 ⟨2, [], []⟩,
          MOp.submit 0 ⟨1, [], []⟩, MOp.rollback 1, MOp.commit 0]) 1 =
      [] ∧
    queueOf (mRun false ⟨[], [], []⟩
        [MOp.txBegin 0, MOp.txBegin 1, MOp.submit 1 ⟨2, [], []⟩,
          MOp.submit 0 ⟨1, [], []⟩, MOp.rollback 1, MOp.commit 0]) 0 =
      [] ∧
    queueOf (mRun false ⟨[], [], []⟩
        [MOp.txBegin 0, MOp.txBegin 1, MOp.submit 1 ⟨2, [], []⟩,
          MOp.submit 0 ⟨1, [], []⟩, MOp.rollback 1, MOp.commit 0]) 1 =
      [] :=
  (buffer_isolation 0 1 [⟨1, [], []⟩] [⟨2, [], []⟩]
    [MOp.txBegin 0, MOp.txBegin 1, MOp.submit 1 ⟨2, [], []⟩,
      MOp.submit 0 ⟨1, [], []⟩, MOp.rollback 1, MOp.commit 0]
    (by decide) (by decide) (by decide)).2
